import Mathlib

/-!
Verification of the LinuxForHealth EDI prototype.

This file is a shallow embedding of the repository's Python sources —
`edi/extensions/x12.py`, `edi/core/models.py`, `edi/core/workflows.py`,
`edi/extensions/eligibilitycheck.py` and `edi/cli.py` — together with
theorems settling the specification's claims about them.

Strings are modelled as `List Char`, wall-clock durations (Python floats
returned by `perf_counter_ms`) as rationals, fallible Python code as
`Except`, and I/O collaborators (file system, NATS transport, HTTP) as
explicit parameters or outcome oracles.
-/

namespace EdiSpec

/-! ## Python string primitives used by the source -/
/-- Python `s.split(sep)` for a single-character separator.
    Mirrors CPython semantics: `"".split(sep) == [""]`, so the result is
    never the empty list. -/
def pySplit (t : Char) : List Char → List (List Char)
  | [] => [[]]
  | c :: rest =>
    let r := pySplit t rest
    if c = t then [] :: r
    else (c :: r.headI) :: r.tail

/-- Python `s.rstrip(t)` for a single-character strip set: removes every
    trailing occurrence of `t`. -/
def pyRstrip (t : Char) (l : List Char) : List Char :=
  (l.reverse.dropWhile (fun c => c = t)).reverse

/-- Removes every trailing empty entry of a list of segments.  This is the
    specification's reading of "discarding the trailing empty artifact
    produced by a final terminator". -/
def dropTrailingEmpty (l : List (List Char)) : List (List Char) :=
  (l.reverse.dropWhile (fun s => List.isEmpty s)).reverse

/-! ## `edi/extensions/x12.py` — the X12 segment reader -/
/-- Embeds `X12Config.isa_element_separator` default. -/
def isa_element_separator : Nat := 3

/-- Embeds `X12Config.isa_repetition_separator` default. -/
def isa_repetition_separator : Nat := 82

/-- Embeds `X12Config.isa_segment_length` default. -/
def isa_segment_length : Nat := 106

/-- Embeds `X12Config.isa_segment_terminator` default. -/
def isa_segment_terminator : Nat := 105

/-- Embeds `X12Config.x12_reader_buffer_size` default. -/
def x12_reader_buffer_size : Nat := 1024000

/-- Embeds `is_x12_data`: `input_data.startswith("ISA") if input_data else False`. -/
def is_x12_data (input : List Char) : Bool :=
  List.isPrefixOf ['I', 'S', 'A'] input

/-- The delimiters read by `X12SegmentReader._set_delimiters`. -/
structure Delimiters where
  element_separator : Char
  repetition_separator : Char
  segment_terminator : Char
  deriving Repr, DecidableEq

/-- The ways `X12SegmentReader.__enter__` can raise for an inline payload:
    `ValueError("Invalid x12_input ...")`, `ValueError("Invalid X12Stream")`,
    or the `IndexError` raised by `_set_delimiters` when the stream holds
    fewer characters than a configured delimiter offset. -/
inductive ReaderError where
  | invalidInput
  | invalidStream
  | indexError
  deriving Repr, DecidableEq

/-- Embeds `X12SegmentReader._set_delimiters`: reads the first `isa_segment_length`
    characters and indexes the configured offsets; an out-of-range index is
    an `IndexError`. -/
def set_delimiters (input : List Char) : Except ReaderError Delimiters :=
  let isa_segment := input.take isa_segment_length
  match isa_segment.get? isa_element_separator,
        isa_segment.get? isa_repetition_separator,
        isa_segment.get? isa_segment_terminator with
  | some e, some r, some t => .ok ⟨e, r, t⟩
  | _, _, _ => .error .indexError

/-- Embeds `X12SegmentReader.__enter__` on an inline payload (the executions in
    which `is_x12_file` returns `False`; the file branch performs I/O and is
    outside the pure embedding): rejects input that is not X12 data, rejects
    an empty stream, then reads the delimiters. -/
def enter (input : List Char) : Except ReaderError Delimiters :=
  if is_x12_data input then
    if (input.take isa_segment_length).isEmpty then .error .invalidStream
    else set_delimiters input
  else .error .invalidInput

/-- The inner `while buffer[-1] != self.segment_terminator` loop of
    `X12SegmentReader.segments`: extends the buffer one character at a time
    from the remaining stream until the buffer ends with the terminator or
    the stream is exhausted.  Returns the extended buffer and the remaining
    stream. -/
def extendBuf (t : Char) : List Char → List Char → List Char × List Char
  | buf, [] => (buf, [])
  | buf, c :: rest =>
    if buf.getLast? = some t then (buf, c :: rest)
    else extendBuf t (buf ++ [c]) rest

/-- One chunk's contribution in `X12SegmentReader.segments`:
    `buffer.rstrip(self.segment_terminator).split(self.segment_terminator)`. -/
def splitChunk (t : Char) (buf : List Char) : List (List Char) :=
  pySplit t (pyRstrip t buf)

/-- The `while True:` loop of `X12SegmentReader.segments` over the
    remaining stream: reads a chunk of `bufSize` characters (an empty read
    breaks the loop), extends it to a terminator boundary, and yields the
    chunk's segments before continuing with the remaining stream.  Each
    iteration consumes at least one character, so the loop is run with
    explicit fuel; `segments` supplies fuel `input.length + 1`, which
    `segsCore_fuel_irrelevant` proves sufficient. -/
def segsCore (t : Char) (bufSize : Nat) : Nat → List Char → List (List Char)
  | 0, _ => []
  | fuel + 1, input =>
    if input.take bufSize = [] then []
    else
      let p := extendBuf t (input.take bufSize) (input.drop bufSize)
      splitChunk t p.1 ++ segsCore t bufSize fuel p.2

/-- Embeds `X12SegmentReader.segments`, as the list of all yielded segments. -/
def segments (bufSize : Nat) (t : Char) (input : List Char) :
    List (List Char) :=
  segsCore t bufSize (input.length + 1) input

/-- Embeds `X12SegmentReader.elements`: `segment.split(delimiter)`. -/
def elements (segment : List Char) (delimiter : Char) : List (List Char) :=
  pySplit delimiter segment

/-! ## Decoded JSON values

`eligibilitycheck.py` consumes loosely-typed nested structures: the models
produced by the external `x12.io` `X12ModelReader` (dicts/lists/strings)
and the `json.loads` decoding of a NATS payload.  Both are modelled by a
JSON value type. -/
/-- Shorthand turning a string literal into the `List Char` representation
    used throughout the embedding. -/
def toL (s : String) : List Char :=
  s.data

/-- A decoded JSON value. -/
inductive JValue where
  | str (s : List Char)
  | num (n : Int)
  | jbool (b : Bool)
  | null
  | arr (items : List JValue)
  | obj (fields : List (List Char × JValue))

mutual

/-- Python `==` on decoded JSON values, as used by the reference lookups
    and the correlation-id check.  Structural; object fields are compared
    in order, which agrees with Python's key-set comparison for the scalar
    and canonically-ordered payloads exchanged here. -/
def jEq : JValue → JValue → Bool
  | .str a, .str b => a == b
  | .num a, .num b => a == b
  | .jbool a, .jbool b => a == b
  | .null, .null => true
  | .arr a, .arr b => jEqList a b
  | .obj a, .obj b => jEqFields a b
  | _, _ => false

def jEqList : List JValue → List JValue → Bool
  | [], [] => true
  | a :: as1, b :: bs1 => jEq a b && jEqList as1 bs1
  | _, _ => false

def jEqFields :
    List (List Char × JValue) → List (List Char × JValue) → Bool
  | [], [] => true
  | (k1, v1) :: r1, (k2, v2) :: r2 =>
    k1 == k2 && jEq v1 v2 && jEqFields r1 r2
  | _, _ => false

end

/-- Python `value != other` where `other` may be the unset (`None`)
    attribute: `None` compares unequal to any JSON scalar or container. -/
def pyNeq (v : JValue) (o : Option JValue) : Bool :=
  match o with
  | some t => !(jEq v t)
  | none => true

/-- Python truthiness of a decoded JSON value. -/
def jTruthy : JValue → Bool
  | .str s => !s.isEmpty
  | .num n => n != 0
  | .jbool b => b
  | .null => false
  | .arr l => !l.isEmpty
  | .obj l => !l.isEmpty

/-- Embeds `d[k]` on a decoded JSON object (`none` models Python's `KeyError`,
    or the `TypeError` of subscripting a non-dict). -/
def jGet : JValue → List Char → Option JValue
  | .obj fields, k => fields.lookup k
  | _, _ => none

/-- Embeds `l[i]` on a decoded JSON array (`none` models Python's `IndexError`,
    or the `TypeError` of indexing a non-list). -/
def jIdx : JValue → Nat → Option JValue
  | .arr items, i => items.get? i
  | _, _ => none

/-- One subscript step of a fixed hierarchical path. -/
inductive PathStep where
  | key (k : List Char)
  | idx (i : Nat)

/-- Evaluate one subscript step. -/
def evalStep (v : JValue) : PathStep → Option JValue
  | .key k => jGet v k
  | .idx i => jIdx v i

/-- Evaluate a chain of subscripts, e.g.
    `model["loop_2000a"][0]["loop_2000b"]`. -/
def evalPath (v : JValue) : List PathStep → Option JValue
  | [] => some v
  | s :: rest => (evalStep v s).bind (fun v' => evalPath v' rest)

/-! ## `edi/core/models.py` — domain models -/
/-- Embeds `BaseMessageType`. -/
inductive BaseMessageType where
  | JSON
  | TEXT
  | XML
  deriving Repr, DecidableEq

/-- Embeds `EdiMessageType`. -/
inductive EdiMessageType where
  | FHIR
  | HL7
  | X12
  deriving Repr, DecidableEq

/-- Embeds `EdiOperations`. -/
inductive EdiOperations where
  | ANALYZE
  | ENRICH
  | VALIDATE
  | TRANSLATE
  | TRANSMIT
  | COMPLETE
  | CANCEL
  | FAIL
  deriving Repr, DecidableEq

/-- Embeds `EdiMessageMetadata`. -/
structure EdiMessageMetadata where
  baseMessageType : BaseMessageType
  messageType : EdiMessageType
  specificationVersion : List Char
  implementationVersions : Option (List (List Char))
  messageSize : Int
  recordCount : Int
  checksum : List Char
  deriving Repr, DecidableEq

/-- Embeds `EdiProcessingMetrics` field data; Python floats are modelled as
    rationals. -/
structure EdiProcessingMetrics where
  analyzeTime : ℚ
  enrichTime : ℚ
  validateTime : ℚ
  translateTime : ℚ
  transmitTime : ℚ
  totalTime : ℚ
  deriving Repr, DecidableEq

/-- Embeds `EdiProcessingMetrics.__init__`: `totalTime` is computed from the
    per-stage durations at construction time. -/
def mkEdiProcessingMetrics (a e v tr tx : ℚ) : EdiProcessingMetrics :=
  { analyzeTime := a, enrichTime := e, validateTime := v,
    translateTime := tr, transmitTime := tx,
    totalTime := a + e + v + tr + tx }

/-- An entry of `EdiResult.errors`: the source appends dicts of the shape
    `{"msg": <string>}`. -/
structure ErrorEntry where
  msg : List Char
  deriving Repr, DecidableEq

/-- Embeds `EdiResult`. -/
structure EdiResult where
  metadata : Option EdiMessageMetadata
  metrics : Option EdiProcessingMetrics
  inputMessage : List Char
  operations : List EdiOperations
  errors : List ErrorEntry
  deriving Repr, DecidableEq

/-! ## `edi/core/workflows.py` — the workflow engine -/
/-- The states of `EdiWorkflow.states`. -/
inductive PState where
  | init
  | analyzed
  | enriched
  | validated
  | translated
  | transmitted
  | completed
  | cancelled
  | failed
  deriving Repr, DecidableEq

/-- The transition names of `EdiWorkflow.transitions`. -/
inductive EdiTransition where
  | analyze
  | enrich
  | validate
  | translate
  | transmit
  | complete
  | cancel
  | fail
  deriving Repr, DecidableEq

/-- The source states of each entry of `EdiWorkflow.transitions`. -/
def transitionSources : EdiTransition → List PState
  | .analyze => [.init]
  | .enrich => [.analyzed]
  | .validate => [.analyzed, .enriched]
  | .translate => [.analyzed, .enriched, .validated]
  | .transmit => [.analyzed, .enriched, .validated, .translated]
  | .complete => [.analyzed, .enriched, .validated, .translated, .transmitted]
  | .cancel => [.init, .analyzed, .enriched, .validated, .translated,
      .transmitted]
  | .fail => [.init, .analyzed, .enriched, .validated, .translated,
      .transmitted]

/-- The target state of each entry of `EdiWorkflow.transitions`. -/
def transitionTarget : EdiTransition → PState
  | .analyze => .analyzed
  | .enrich => .enriched
  | .validate => .validated
  | .translate => .translated
  | .transmit => .transmitted
  | .complete => .completed
  | .cancel => .cancelled
  | .fail => .failed

/-- Python `attribute == "literal"` where the attribute holds a decoded
    JSON value or is still `None` (`None` is unequal to any string). -/
def pyEqStr (v : Option JValue) (s : List Char) : Bool :=
  match v with
  | some x => jEq x (.str s)
  | none => false

/-- Embeds `EdiEligibilityCheckProcessor._get_patient_reference`: simulated lookup;
    Python's implicit fall-through returns `None`. -/
def get_patient_reference (last first _id : Option JValue) :
    Option (List Char) :=
  if pyEqStr last (toL "DOE") && pyEqStr first (toL "JOHN") &&
      pyEqStr _id (toL "11122333301") then
    some (toL "Patient/001")
  else none

/-- Embeds `EdiEligibilityCheckProcessor._get_insurer_reference`. -/
def get_insurer_reference (name _id : Option JValue) : Option (List Char) :=
  if pyEqStr name (toL "UNIFIED INSURANCE CO") &&
      pyEqStr _id (toL "842610001") then
    some (toL "Organization/001")
  else none

/-- Embeds `EdiEligibilityCheckProcessor._get_coverage_reference`. -/
def get_coverage_reference (last first _id : Option JValue) :
    Option (List Char) :=
  if pyEqStr last (toL "DOE") && pyEqStr first (toL "JOHN") &&
      pyEqStr _id (toL "11122333301") then
    some (toL "Coverage/9876B1")
  else none

/-- The dict built by `EdiEligibilityCheckProcessor._create_request`: the
    FHIR CoverageEligibilityRequest resource, with its fixed schema fields
    and the fields filled from the processor attributes and today's date. -/
structure CoverageEligibilityRequest where
  resourceType : List Char
  id : Option JValue
  text_status : List Char
  text_div : List Char
  identifier_system : List Char
  identifier_value : Option JValue
  status : List Char
  priority_code : List Char
  purpose : List (List Char)
  patient_reference : Option (List Char)
  created : List Char
  provider_reference : List Char
  insurer_reference : Option (List Char)
  insurance_focal : Bool
  coverage_reference : Option (List Char)

/-- The mutable attributes of an `EdiProcessor`, together with those added
    by its subclass `EdiEligibilityCheckProcessor.__init__` (the NATS client
    handle, a transport resource, is modelled separately). -/
structure Proc where
  state : PState
  input_message : List Char
  meta_data : Option EdiMessageMetadata
  metrics : EdiProcessingMetrics
  operations : List EdiOperations
  transmit_data : Option CoverageEligibilityRequest
  transmit_result : Option (List Char)
  transmit_status_code : Option Int
  message_received : Bool
  subscriber_last : Option JValue
  subscriber_first : Option JValue
  subscriber_id : Option JValue
  insurer_name : Option JValue
  insurer_id : Option JValue
  provider_name : Option JValue
  provider_id : Option JValue
  transaction_id : Option JValue

/-- Embeds `EdiProcessor.__init__` (together with
    `EdiEligibilityCheckProcessor.__init__`): initial attribute values. -/
def initProc (input_message : List Char) : Proc :=
  { state := .init
    input_message := input_message
    meta_data := none
    metrics := mkEdiProcessingMetrics 0 0 0 0 0
    operations := []
    transmit_data := none
    transmit_result := none
    transmit_status_code := none
    message_received := false
    subscriber_last := none
    subscriber_first := none
    subscriber_id := none
    insurer_name := none
    insurer_id := none
    provider_name := none
    provider_id := none
    transaction_id := none }

/-- Embeds `xworkflows.InvalidTransitionError`, which names the current state and
    the requested transition. -/
inductive WorkflowError where
  | invalidTransition (current : PState) (requested : EdiTransition)
  deriving Repr, DecidableEq

/-- Embeds `TranslationError`: the specification's name for the faults raised by
    the fixed-path extraction in `translate` (Python `KeyError`,
    `IndexError` or `TypeError` on an absent path). -/
inductive TranslationError where
  | missingField
  deriving Repr, DecidableEq

/-- Faults that can escape a transition call: the workflow guard, the
    analyzer (`AnalysisError`), the HTTP transport during `transmit`
    (stringified), or the translation stage. -/
inductive StepFault where
  | workflow (e : WorkflowError)
  | analysis (msg : List Char)
  | transport (msg : List Char)
  | translation (e : TranslationError)
  deriving Repr, DecidableEq

/-- The run-time inputs consumed by the base-class transitions: elapsed
    wall-clock durations, the `EdiAnalyzer` outcome, the HTTP response of
    the `transmit` POST, and the arguments of `fail`. -/
structure DynInputs where
  elapsed : ℚ
  analyzerOutcome : Except (List Char) EdiMessageMetadata
  transmitResponse : Except (List Char) (List Char × Int)
  failReason : List Char
  failException : Option (List Char)

/-- Embeds `EdiProcessor._create_edi_result`. -/
def create_edi_result (p : Proc) : EdiResult :=
  { metadata := p.meta_data
    metrics := some p.metrics
    inputMessage := p.input_message
    operations := p.operations
    errors := [] }

/-- One transition call on an `EdiProcessor` (base-class bodies).  Mirrors
    the `xworkflows` discipline: the guard rejects an illegal source state
    with `InvalidTransitionError` before the body runs, otherwise the body
    runs and the state advances afterwards.  Returns the raised fault or
    the returned `EdiResult` (if any), together with the processor as left
    by the call. -/
def applyTransition (p : Proc) (tr : EdiTransition) (d : DynInputs) :
    Except StepFault (Option EdiResult) × Proc :=
  if p.state ∈ transitionSources tr then
    match tr with
    | .analyze =>
      match d.analyzerOutcome with
      | .error e => (.error (.analysis e), p)
      | .ok meta =>
        (.ok none,
         { p with
             meta_data := some meta
             metrics := { p.metrics with analyzeTime := d.elapsed }
             operations := p.operations ++ [.ANALYZE]
             state := .analyzed })
    | .enrich =>
      (.ok none,
       { p with
           metrics := { p.metrics with enrichTime := d.elapsed }
           operations := p.operations ++ [.ENRICH]
           state := .enriched })
    | .validate =>
      (.ok none,
       { p with
           metrics := { p.metrics with validateTime := d.elapsed }
           operations := p.operations ++ [.VALIDATE]
           state := .validated })
    | .translate =>
      (.ok none,
       { p with
           metrics := { p.metrics with translateTime := d.elapsed }
           operations := p.operations ++ [.TRANSLATE]
           state := .translated })
    | .transmit =>
      match d.transmitResponse with
      | .error e => (.error (.transport e), p)
      | .ok (text, code) =>
        (.ok none,
         { p with
             transmit_result := some text
             transmit_status_code := some code
             metrics := { p.metrics with transmitTime := d.elapsed }
             operations := p.operations ++ [.TRANSMIT]
             state := .transmitted })
    | .complete =>
      let p' := { p with operations := p.operations ++ [.COMPLETE] }
      (.ok (some (create_edi_result p')), { p' with state := .completed })
    | .cancel =>
      let p' := { p with operations := p.operations ++ [.CANCEL] }
      (.ok (some (create_edi_result p')), { p' with state := .cancelled })
    | .fail =>
      let p' := { p with operations := p.operations ++ [.FAIL] }
      let r0 := create_edi_result p'
      let r :=
        { r0 with
            errors := [ErrorEntry.mk d.failReason] ++
              (match d.failException with
               | some e => [ErrorEntry.mk e]
               | none => []) }
      (.ok (some r), { p' with state := .failed })
  else (.error (.workflow (.invalidTransition p.state tr)), p)

/-! ## `edi/extensions/eligibilitycheck.py` — eligibility-check processor -/
/-- Embeds `EdiEligibilityCheckProcessor._create_request`: builds the outbound
    resource deterministically from the fixed schema, today's date (a
    parameter standing for `datetime.date.today().isoformat()`), and the
    extracted identity/transaction attributes. -/
def create_request (p : Proc) (today : List Char) :
    CoverageEligibilityRequest :=
  { resourceType := toL "CoverageEligibilityRequest"
    id := p.transaction_id
    text_status := toL "generated"
    text_div := toL "<div xmlns=\"http://www.w3.org/1999/xhtml\">A human-readable rendering of the CoverageEligibilityRequest</div>"
    identifier_system := toL "http://happyvalley.com/coverageelegibilityrequest"
    identifier_value := p.transaction_id
    status := toL "active"
    priority_code := toL "normal"
    purpose := [toL "validation"]
    patient_reference :=
      get_patient_reference p.subscriber_last p.subscriber_first
        p.subscriber_id
    created := today
    provider_reference := toL "Organization/1"
    insurer_reference := get_insurer_reference p.insurer_name p.insurer_id
    insurance_focal := true
    coverage_reference :=
      get_coverage_reference p.subscriber_last p.subscriber_first
        p.subscriber_id }

/-- Path of `model["loop_2000a"][0]["loop_2000b"][0]["loop_2000c"][0]["loop_2100c"]["nm1_segment"]`. -/
def path_2100c_nm1 : List PathStep :=
  [.key (toL "loop_2000a"), .idx 0, .key (toL "loop_2000b"), .idx 0,
   .key (toL "loop_2000c"), .idx 0, .key (toL "loop_2100c"),
   .key (toL "nm1_segment")]

/-- Path of `model["loop_2000a"][0]["loop_2000b"][0]["loop_2000c"][0]["trn_segment"][0]`. -/
def path_trn : List PathStep :=
  [.key (toL "loop_2000a"), .idx 0, .key (toL "loop_2000b"), .idx 0,
   .key (toL "loop_2000c"), .idx 0, .key (toL "trn_segment"), .idx 0]

/-- Path of `model["loop_2000a"][0]["loop_2100a"]["nm1_segment"]`. -/
def path_2100a_nm1 : List PathStep :=
  [.key (toL "loop_2000a"), .idx 0, .key (toL "loop_2100a"),
   .key (toL "nm1_segment")]

/-- Path of `model["loop_2000a"][0]["loop_2000b"][0]["loop_2100b"]["nm1_segment"]`. -/
def path_2100b_nm1 : List PathStep :=
  [.key (toL "loop_2000a"), .idx 0, .key (toL "loop_2000b"), .idx 0,
   .key (toL "loop_2100b"), .key (toL "nm1_segment")]

/-- Lifts an absent subscript (`KeyError`/`IndexError`/`TypeError`) to the
    `MissingField` taxonomy entry. -/
def need (o : Option JValue) : Except TranslationError JValue :=
  match o with
  | some v => .ok v
  | none => .error .missingField

/-- The identity/transaction fields extracted by one iteration of
    `EdiEligibilityCheckProcessor.translate`. -/
structure ExtractedFields where
  subscriber_last : JValue
  subscriber_first : JValue
  subscriber_id : JValue
  transaction_id : JValue
  insurer_name : JValue
  insurer_id : JValue
  provider_name : JValue
  provider_id : JValue

/-- The field extraction performed on one model by
    `EdiEligibilityCheckProcessor.translate` (lines assigning
    `self.subscriber_last` through `self.provider_id`). -/
def extractFields (model : JValue) : Except TranslationError ExtractedFields := do
  let seg1 ← need (evalPath model path_2100c_nm1)
  let subscriber_last ← need (jGet seg1 (toL "name_last_or_organization_name"))
  let subscriber_first ← need (jGet seg1 (toL "name_first"))
  let subscriber_id ← need (jGet seg1 (toL "identification_code"))
  let seg2 ← need (evalPath model path_trn)
  let transaction_id ← need (jGet seg2 (toL "originating_company_identifier"))
  let seg3 ← need (evalPath model path_2100a_nm1)
  let insurer_name ← need (jGet seg3 (toL "name_last_or_organization_name"))
  let insurer_id ← need (jGet seg3 (toL "identification_code"))
  let seg4 ← need (evalPath model path_2100b_nm1)
  let provider_name ← need (jGet seg4 (toL "name_last_or_organization_name"))
  let provider_id ← need (jGet seg4 (toL "identification_code"))
  pure
    { subscriber_last := subscriber_last
      subscriber_first := subscriber_first
      subscriber_id := subscriber_id
      transaction_id := transaction_id
      insurer_name := insurer_name
      insurer_id := insurer_id
      provider_name := provider_name
      provider_id := provider_id }

/-- One `for model in models:` iteration of
    `EdiEligibilityCheckProcessor.translate`: looks up the fixed
    hierarchical paths and assigns the processor attributes one at a time
    (a raising lookup leaves the earlier in-place assignments in effect),
    then builds `transmit_data` via `_create_request`, records the elapsed
    time into `metrics.translateTime` and appends `TRANSLATE` to the
    operation log.  `elapsedTime` is the wall-clock measurement of this
    iteration and `today` today's date. -/
def translateModel (today : List Char) (elapsedTime : ℚ) (p : Proc)
    (model : JValue) : Proc × Option TranslationError :=
  match evalPath model path_2100c_nm1 with
  | none => (p, some .missingField)
  | some seg1 =>
    match jGet seg1 (toL "name_last_or_organization_name") with
    | none => (p, some .missingField)
    | some v =>
      let p := { p with subscriber_last := some v }
      match jGet seg1 (toL "name_first") with
      | none => (p, some .missingField)
      | some v =>
        let p := { p with subscriber_first := some v }
        match jGet seg1 (toL "identification_code") with
        | none => (p, some .missingField)
        | some v =>
          let p := { p with subscriber_id := some v }
          match evalPath model path_trn with
          | none => (p, some .missingField)
          | some seg2 =>
            match jGet seg2 (toL "originating_company_identifier") with
            | none => (p, some .missingField)
            | some v =>
              let p := { p with transaction_id := some v }
              match evalPath model path_2100a_nm1 with
              | none => (p, some .missingField)
              | some seg3 =>
                match jGet seg3 (toL "name_last_or_organization_name") with
                | none => (p, some .missingField)
                | some v =>
                  let p := { p with insurer_name := some v }
                  match jGet seg3 (toL "identification_code") with
                  | none => (p, some .missingField)
                  | some v =>
                    let p := { p with insurer_id := some v }
                    match evalPath model path_2100b_nm1 with
                    | none => (p, some .missingField)
                    | some seg4 =>
                      match jGet seg4 (toL "name_last_or_organization_name") with
                      | none => (p, some .missingField)
                      | some v =>
                        let p := { p with provider_name := some v }
                        match jGet seg4 (toL "identification_code") with
                        | none => (p, some .missingField)
                        | some v =>
                          let p := { p with provider_id := some v }
                          let p := { p with transmit_data := some (create_request p today) }
                          let p := { p with metrics := { p.metrics with translateTime := elapsedTime } }
                          let p := { p with operations := p.operations ++ [.TRANSLATE] }
                          (p, none)

/-- The `for model in models:` loop of
    `EdiEligibilityCheckProcessor.translate`; `elapsed i` is the wall-clock
    measurement observed on iteration `i`. -/
def translateLoop (today : List Char) (elapsed : Nat → ℚ) :
    Nat → Proc → List JValue → Proc × Option TranslationError
  | _, p, [] => (p, none)
  | i, p, model :: rest =>
    match translateModel today (elapsed i) p model with
    | (p', some e) => (p', some e)
    | (p', none) => translateLoop today elapsed (i + 1) p' rest

/-- Embeds `EdiEligibilityCheckProcessor.translate` (the subclass override of the
    `translate` transition): `models` stands for the list produced by the
    external `X12ModelReader` on `input_message`.  The `xworkflows` guard
    runs first; the state advances only when the body returns without
    raising. -/
def elig_translate (p : Proc) (models : List JValue) (today : List Char)
    (elapsed : Nat → ℚ) : Except StepFault Unit × Proc :=
  if p.state ∈ transitionSources .translate then
    match translateLoop today elapsed 0 p models with
    | (p', some e) => (.error (.translation e), p')
    | (p', none) => (.ok (), { p' with state := .translated })
  else (.error (.workflow (.invalidTransition p.state .translate)), p)

/-! ### The NATS response callback -/
/-- The Python faults that can escape
    `nats_coverage_response_callback` after decoding: an absent payload
    path (`KeyError`/`IndexError`/`TypeError`), a reader fault opening the
    271 template, an unbound or empty `element_delimiter`
    (`NameError`/`ValueError`), an out-of-range element assignment
    (`IndexError`), or joining a non-string element (`TypeError`). -/
inductive CallbackFault where
  | pathErr
  | reader (e : ReaderError)
  | delimiterErr
  | indexErr
  | joinErr
  deriving Repr, DecidableEq

/-- Lifts an absent payload path to a callback fault. -/
def needCb (o : Option JValue) : Except CallbackFault JValue :=
  match o with
  | some v => .ok v
  | none => .error .pathErr

/-- Embeds `l[i]` on a Python list (raises `IndexError` out of range). -/
def getE (l : List JValue) (i : Nat) : Except CallbackFault JValue :=
  match l.get? i with
  | some v => .ok v
  | none => .error .indexErr

/-- Embeds `l[i] = v` on a Python list (raises `IndexError` out of range). -/
def setE (l : List JValue) (i : Nat) (v : JValue) :
    Except CallbackFault (List JValue) :=
  if i < l.length then .ok (l.set i v) else .error .indexErr

/-- A processor attribute read inside the callback: `None` decodes to the
    JSON null (it is only ever compared or stored). -/
def attrVal (o : Option JValue) : JValue :=
  match o with
  | some v => v
  | none => .null

/-- The `NM1`/`TRN`/`EB` element rewrites of
    `nats_coverage_response_callback` (template population). -/
def rewriteFields (p : Proc) (eligibility : Nat) (segment : List Char)
    (els : List JValue) : Except CallbackFault (List JValue) := do
  if segment.take 3 = toL "NM1" then
    let el1 ← getE els 1
    if jEq el1 (.str (toL "IL")) then do
      let els ← setE els 3 (attrVal p.subscriber_last)
      let els ← setE els 4 (attrVal p.subscriber_first)
      setE els 9 (attrVal p.subscriber_id)
    else if jEq el1 (.str (toL "PR")) then do
      let els ← setE els 3 (attrVal p.insurer_name)
      setE els 9 (attrVal p.insurer_id)
    else if jEq el1 (.str (toL "1P")) then do
      let els ← setE els 3 (attrVal p.provider_name)
      setE els 9 (attrVal p.provider_id)
    else pure els
  else if segment.take 3 = toL "TRN" then
    setE els 2 (attrVal p.transaction_id)
  else if segment.take 2 = toL "EB" then
    setE els 1 (.str (toL (toString eligibility)))
  else pure els

/-- Embeds `element_delimiter.join(elements)` (raises `TypeError` on a non-string
    element). -/
def joinElements (delim : Char) (els : List JValue) :
    Except CallbackFault (List Char) := do
  let strs ← els.mapM (fun v =>
    match v with
    | .str s => Except.ok s
    | _ => Except.error CallbackFault.joinErr)
  pure (List.intercalate [delim] strs)

/-- One iteration of the `for segment in r.segments():` loop of
    `nats_coverage_response_callback`: tracks the `element_delimiter`
    binding and the accumulated `output_message`. -/
def rewriteStep (p : Proc) (eligibility : Nat)
    (st : Option Char × List Char) (segment : List Char) :
    Except CallbackFault (Option Char × List Char) :=
  let isIsa := segment.take 3 = toL "ISA"
  let delimOpt := if isIsa then segment.get? 3 else st.1
  let out := if isIsa then st.2 else st.2 ++ toL "~"
  match delimOpt with
  | none => .error .delimiterErr
  | some delim => do
    let els := (pySplit delim segment).map JValue.str
    let els ← rewriteFields p eligibility segment els
    let joined ← joinElements delim els
    pure (delimOpt, out ++ pyRstrip delim joined)

/-- The fixed path `message["identifier"][0]["value"]` checked by the
    callback. -/
def correlationIdPath : List PathStep :=
  [.key (toL "identifier"), .idx 0, .key (toL "value")]

/-- The fixed path `message["insurance"][0]["inforce"]`. -/
def inforcePath : List PathStep :=
  [.key (toL "insurance"), .idx 0, .key (toL "inforce")]

/-- Embeds `EdiEligibilityCheckProcessor.nats_coverage_response_callback` on a
    decoded payload.  `template` stands for the contents of
    `./samples/271.x12` after the `",".join(f.readlines())` read.  Returns
    the processor as left by the callback and the rewritten 271 text when
    one was produced. -/
def nats_coverage_response_callback (p : Proc) (payload : JValue)
    (template : List Char) :
    Except CallbackFault (Proc × Option (List Char)) := do
  let idv ← needCb (evalPath payload correlationIdPath)
  if pyNeq idv p.transaction_id then
    pure (p, none)
  else do
    let inforce ← needCb (evalPath payload inforcePath)
    let eligibility : Nat := if jTruthy inforce then 1 else 6
    let delims ←
      match enter template with
      | .ok ds => Except.ok ds
      | .error e => Except.error (CallbackFault.reader e)
    let segs := segments x12_reader_buffer_size delims.segment_terminator
      template
    let res ← segs.foldlM (rewriteStep p eligibility)
      ((none : Option Char), ([] : List Char))
    pure ({ p with message_received := true }, some res.2)

/-! ## `edi/cli.py` — the processing run -/
/-- The CLI flags forwarded to `process_edi` as kwargs. -/
structure RunFlags where
  enrich : Bool
  validate : Bool
  translate : Bool
  transmit : Bool

/-- How a `process_edi` run ends: with a result, with an uncaught
    exception (there is no `try`/`finally` in `process_edi`), or
    suspended forever in the `while not processor.message_received`
    poll loop. -/
inductive RunOutcome where
  | finished (r : EdiResult)
  | raised (f : StepFault)
  | hangs

/-- Embeds `cli.process_edi` on the contents of the EDI file.  The second
    component records whether the NATS subscription was released
    (`stop_nats_coverage_eligibility_subscriber`, which closes the client)
    before the run ended.  `messageArrives` is true when the transport
    eventually delivers a message that makes the callback set
    `message_received`. -/
def process_edi (input : List Char) (flags : RunFlags) (d : DynInputs)
    (models : List JValue) (today : List Char) (elapsedT : Nat → ℚ)
    (messageArrives : Bool) : RunOutcome × Bool :=
  -- `start_nats_coverage_eligibility_subscriber()` opens the subscription
  match applyTransition (initProc input) .analyze d with
  | (.error f, _) => (.raised f, false)
  | (.ok _, p) =>
    match (if flags.enrich then applyTransition p .enrich d
           else (.ok none, p)) with
    | (.error f, _) => (.raised f, false)
    | (.ok _, p) =>
      match (if flags.validate then applyTransition p .validate d
             else (.ok none, p)) with
      | (.error f, _) => (.raised f, false)
      | (.ok _, p) =>
        match (if flags.translate then elig_translate p models today elapsedT
               else (.ok (), p)) with
        | (.error f, _) => (.raised f, false)
        | (.ok _, p) =>
          match (if flags.transmit then applyTransition p .transmit d
                 else (.ok none, p)) with
          | (.error f, _) => (.raised f, false)
          | (.ok _, p) =>
            if messageArrives then
              -- the callback sets `message_received`; the poll loop exits
              let p := { p with message_received := true }
              -- `stop_nats_coverage_eligibility_subscriber()` runs here
              match applyTransition p .complete d with
              | (.error f, _) => (.raised f, true)
              | (.ok (some r), _) => (.finished r, true)
              -- `complete` always returns a result; branch unreachable
              | (.ok none, p') => (.finished (create_edi_result p'), true)
            else (.hangs, false)

/-! ## Concrete fixtures used by witnesses and counterexamples -/
/-- A concrete metadata value (the example of `EdiMessageMetadata`). -/
def metaEx : EdiMessageMetadata :=
  { baseMessageType := .TEXT
    messageType := .X12
    specificationVersion := toL "005010X279A1"
    implementationVersions := none
    messageSize := 509
    recordCount := 17
    checksum := toL "d7a9" }

/-- Concrete run-time inputs: the analyzer succeeds, every stage takes
    5 ms, the POST returns 200, `fail` is called with reason `"boom"` and
    no exception. -/
def dEx : DynInputs :=
  { elapsed := 5
    analyzerOutcome := .ok metaEx
    transmitResponse := .ok (toL "ok", 200)
    failReason := toL "boom"
    failException := none }

/-- A processor that has reached the terminal state `completed`. -/
def procCompleted : Proc :=
  { initProc (toL "msg") with state := .completed }

/-- A processor that has completed `analyze`. -/
def procAnalyzed : Proc :=
  { initProc (toL "msg") with state := .analyzed }

/-! ## C4 -/
/-- The full fixed hierarchical paths consumed by
    `EdiEligibilityCheckProcessor.translate`: transaction id and
    subscriber/payer/provider identity fields. -/
def consumedPaths : List (List PathStep) :=
  [path_2100c_nm1 ++ [.key (toL "name_last_or_organization_name")],
   path_2100c_nm1 ++ [.key (toL "name_first")],
   path_2100c_nm1 ++ [.key (toL "identification_code")],
   path_trn ++ [.key (toL "originating_company_identifier")],
   path_2100a_nm1 ++ [.key (toL "name_last_or_organization_name")],
   path_2100a_nm1 ++ [.key (toL "identification_code")],
   path_2100b_nm1 ++ [.key (toL "name_last_or_organization_name")],
   path_2100b_nm1 ++ [.key (toL "identification_code")]]

/-- A processor whose translate stage recorded transaction id
    `"9877281234"`. -/
def procWithTid : Proc :=
  { initProc (toL "msg") with
      state := .transmitted
      transaction_id := some (.str (toL "9877281234")) }

/-- A decoded payload whose correlation id does not match
    `procWithTid`. -/
def payloadMismatch : JValue :=
  .obj [(toL "identifier",
         .arr [.obj [(toL "value", .str (toL "0000000000"))]])]

/-! ## C10 -/
/-- A fully-populated `NM1` segment dict. -/
def nm1Ex (last first id : String) : JValue :=
  .obj [(toL "name_last_or_organization_name", .str (toL last)),
        (toL "name_first", .str (toL first)),
        (toL "identification_code", .str (toL id))]

/-- A parsed 270 model carrying every path consumed by `translate`. -/
def modelEx : JValue :=
  .obj [(toL "loop_2000a", .arr [
    .obj [
      (toL "loop_2100a",
       .obj [(toL "nm1_segment",
              nm1Ex "UNIFIED INSURANCE CO" "" "842610001")]),
      (toL "loop_2000b", .arr [
        .obj [
          (toL "loop_2100b",
           .obj [(toL "nm1_segment",
                  nm1Ex "HAPPY VALLEY CLINIC" "" "1122334455")]),
          (toL "loop_2000c", .arr [
            .obj [
              (toL "loop_2100c",
               .obj [(toL "nm1_segment", nm1Ex "DOE" "JOHN" "11122333301")]),
              (toL "trn_segment",
               .arr [.obj [(toL "originating_company_identifier",
                            .str (toL "9877281234"))]])]])]])]])]

/-! ## C5 -/
/-- All CLI operations requested. -/
def flagsAll : RunFlags :=
  { enrich := true, validate := true, translate := true, transmit := true }

/-- Run-time inputs on which the analyzer raises. -/
def dAnalyzeFails : DynInputs :=
  { dEx with analyzerOutcome := .error (toL "AnalysisError") }

/-! ## C7 — properties of `pySplit`, `pyRstrip` and the chunked reader -/
/-- No two adjacent characters of `l` both equal the terminator: the input
    contains no empty segment between two consecutive terminators. -/
def noAdjacent (t : Char) (l : List Char) : Prop :=
  l.Chain' (fun a b => ¬(a = t ∧ b = t))

/-- Executable check for `noAdjacent`. -/
def noAdjacentB (t : Char) : List Char → Bool
  | a :: b :: rest => !(a == t && b == t) && noAdjacentB t (b :: rest)
  | _ => true

/-- A valid 106-character ISA header: `"ISA*"`, 101 filler characters, and
    the terminator `'~'` at offset 105 (element separator `'*'` at offset
    3, repetition separator `'A'` at offset 82). -/
def hdrEx : List Char :=
  toL "ISA*" ++ List.replicate 101 'A' ++ toL "~"

/-- An input with a valid header followed by an empty segment and a body
    segment: `hdrEx ++ "~B~"`. -/
def c7Input : List Char :=
  hdrEx ++ toL "~B~"

/-! ## C8 — the encode/decode round trip

The encoding side is the one described by the claim: join each segment's
elements with the element separator, terminate each segment with the
segment terminator, and put a valid 106-character ISA header carrying the
delimiters in front.  Decoding is the code's `segments()` followed by
`elements()`, with the header's own segment dropped. -/
/-- Python `sep.join(parts)` for a one-character separator. -/
def joinSep (sep : Char) : List (List Char) → List Char
  | [] => []
  | [e] => e
  | e :: rest => e ++ sep :: joinSep sep rest

/-- One encoded segment: elements joined with `sep`, then the
    terminator. -/
def encodeSegment (sep term : Char) (seg : List (List Char)) : List Char :=
  joinSep sep seg ++ [term]

/-- The encoded body: each segment encoded in order. -/
def encodeBody (sep term : Char) (segs : List (List (List Char))) :
    List Char :=
  (segs.map (encodeSegment sep term)).join

/-- Decoding with the reader: `segments()` (the first yielded segment is
    the header's, dropped), then `elements()` on each segment. -/
def decode (bufSize : Nat) (term sep : Char) (input : List Char) :
    List (List (List Char)) :=
  ((segments bufSize term input).drop 1).map (fun seg => elements seg sep)

/-- The header body used by the round-trip fixtures: `"ISA*"`, then 101
    filler characters (length 105, element separator `'*'` at offset 3,
    no terminator occurrence). -/
def hb105 : List Char :=
  toL "ISA*" ++ List.replicate 101 'A'

/-! ## Theorems -/

theorem extendBuf_append (t : Char) (buf rest : List Char) :
    (extendBuf t buf rest).1 ++ (extendBuf t buf rest).2 = buf ++ rest := by
  induction rest generalizing buf with
  | nil => simp [extendBuf]
  | cons c rest ih =>
    by_cases h : buf.getLast? = some t
    · simp [extendBuf, h]
    · simpa [extendBuf, h] using ih (buf ++ [c])

theorem extendBuf_snd_length (t : Char) (buf rest : List Char) :
    (extendBuf t buf rest).2.length ≤ rest.length := by
  induction rest generalizing buf with
  | nil => simp [extendBuf]
  | cons c rest ih =>
    by_cases h : buf.getLast? = some t
    · simp [extendBuf, h]
    · exact le_trans (by simpa [extendBuf, h] using ih (buf ++ [c]))
        (by simp)

theorem extendBuf_ne_nil (t : Char) (buf rest : List Char) (h : buf ≠ []) :
    (extendBuf t buf rest).1 ≠ [] := by
  induction rest generalizing buf with
  | nil => simpa [extendBuf]
  | cons c rest ih =>
    by_cases hl : buf.getLast? = some t
    · simpa [extendBuf, hl]
    · simpa [extendBuf, hl] using ih (buf ++ [c]) (by simp)

theorem extendBuf_getLast (t : Char) (buf rest : List Char)
    (h : (extendBuf t buf rest).2 ≠ []) :
    (extendBuf t buf rest).1.getLast? = some t := by
  induction rest generalizing buf with
  | nil => simp [extendBuf] at h
  | cons c rest ih =>
    by_cases hl : buf.getLast? = some t
    · simpa [extendBuf, hl]
    · rw [extendBuf, if_neg hl] at h ⊢
      exact ih (buf ++ [c]) h

theorem extendBuf_stop (t : Char) (buf rest : List Char)
    (h : buf.getLast? = some t) : extendBuf t buf rest = (buf, rest) := by
  cases rest with
  | nil => simp [extendBuf]
  | cons c rest => simp [extendBuf, h]

theorem segsCore_fuel_irrelevant (t : Char) (bufSize : Nat) :
    ∀ fuel fuel' input, input.length < fuel → input.length < fuel' →
      segsCore t bufSize fuel input = segsCore t bufSize fuel' input := by
  intro fuel
  induction fuel with
  | zero => omega
  | succ fuel ih =>
    intro fuel' input hf hf'
    cases fuel' with
    | zero => omega
    | succ fuel' =>
      by_cases hbuf : input.take bufSize = []
      · simp [segsCore, hbuf]
      · have hne : input ≠ [] := by
          intro hx
          simp [hx] at hbuf
        have h1 : (extendBuf t (input.take bufSize) (input.drop bufSize)).2.length
            ≤ (input.drop bufSize).length := extendBuf_snd_length ..
        have h3 : 0 < (input.take bufSize).length :=
          List.length_pos.mpr hbuf
        have h4 : input.length = (input.take bufSize).length +
            (input.drop bufSize).length := by
          rw [← List.length_append, List.take_append_drop]
        simp only [segsCore, if_neg hbuf]
        rw [ih fuel' _ (by omega) (by omega)]

/-! ## C1 -/
/-- C1 asserts that after every legal transition `metrics.totalTime` equals
    the sum of the per-stage durations recorded so far.  The code violates
    this: `EdiProcessingMetrics.__init__` derives `totalTime` once at
    construction, but `analyze` then assigns `metrics.analyzeTime` without
    refreshing `totalTime`.  After a legal `analyze` from `init` taking
    5 ms, `analyzeTime = 5` while `totalTime` is still `0`, so `totalTime`
    differs from the sum of the per-stage durations. -/
theorem totalTime_stale_after_analyze :
    (applyTransition (initProc (toL "msg")) .analyze dEx).1 = .ok none ∧
    (applyTransition (initProc (toL "msg")) .analyze dEx).2.metrics.analyzeTime
      = 5 ∧
    (applyTransition (initProc (toL "msg")) .analyze dEx).2.metrics.totalTime
      = 0 ∧
    ((applyTransition (initProc (toL "msg")) .analyze dEx).2.metrics.totalTime ≠
      (applyTransition (initProc (toL "msg")) .analyze dEx).2.metrics.analyzeTime +
      (applyTransition (initProc (toL "msg")) .analyze dEx).2.metrics.enrichTime +
      (applyTransition (initProc (toL "msg")) .analyze dEx).2.metrics.validateTime +
      (applyTransition (initProc (toL "msg")) .analyze dEx).2.metrics.translateTime +
      (applyTransition (initProc (toL "msg")) .analyze dEx).2.metrics.transmitTime) := by
  have h : (applyTransition (initProc (toL "msg")) .analyze dEx).2.metrics =
      { analyzeTime := 5, enrichTime := 0, validateTime := 0,
        translateTime := 0, transmitTime := 0,
        totalTime := 0 + 0 + 0 + 0 + 0 } := rfl
  refine ⟨rfl, ?_, ?_, ?_⟩ <;> rw [h] <;> norm_num

/-! ## C2 -/
/-- C2 asserts that `fail` never raises from any state.  This fails on the
    code: `fail` is a guarded transition whose sources exclude the terminal
    states, so calling it with reason `"boom"` on a processor in state
    `completed` raises `InvalidTransitionError` instead of returning a
    result. -/
theorem fail_raises_from_completed :
    applyTransition procCompleted .fail dEx =
      (.error (.workflow (.invalidTransition .completed .fail)),
       procCompleted) := by
  rfl

/-- C2 (amended): from every state in `fail`'s transition table — every
    non-terminal state, `init` included — `fail(reason, exception?)` does
    not raise: it returns a result whose operation log is the current log
    with `FAIL` appended (hence ends with `FAIL`), whose error list is the
    entry `{"msg": reason}` followed, when an exception is given, by an
    entry with the stringified exception, and it moves the state to
    `failed`. -/
theorem fail_spec (p : Proc) (d : DynInputs)
    (h : p.state ∈ transitionSources .fail) :
    applyTransition p .fail d =
      (.ok (some
        { metadata := p.meta_data
          metrics := some p.metrics
          inputMessage := p.input_message
          operations := p.operations ++ [.FAIL]
          errors := ErrorEntry.mk d.failReason ::
            (match d.failException with
             | some e => [ErrorEntry.mk e]
             | none => []) }),
       { p with operations := p.operations ++ [.FAIL], state := .failed }) ∧
    (p.operations ++ [EdiOperations.FAIL]).getLast? =
      some EdiOperations.FAIL := by
  refine ⟨?_, by simp⟩
  simp [applyTransition, h, create_edi_result]

/-- Witness for C2 (amended): `fail` from `init` with reason `"boom"` and
    no exception succeeds, the log ends with `FAIL`, and the error list is
    exactly `[{"msg": "boom"}]`. -/
theorem fail_spec_witness :
    (applyTransition (initProc (toL "msg")) .fail dEx).2.state = .failed ∧
    ∃ r, (applyTransition (initProc (toL "msg")) .fail dEx).1 = .ok (some r) ∧
      r.operations.getLast? = some .FAIL ∧
      r.errors = [ErrorEntry.mk (toL "boom")] := by
  have h := fail_spec (initProc (toL "msg")) dEx (by decide)
  rw [h.1]
  exact ⟨rfl, _, rfl, by simp, rfl⟩

/-! ## C6 -/
/-- C6: for every source state and every transition illegal from it, the
    call fails with `InvalidTransition` naming the current state and the
    requested transition, and returns the processor unchanged (state and
    operation log included). -/
theorem illegal_transition_rejected (p : Proc) (tr : EdiTransition)
    (d : DynInputs) (h : p.state ∉ transitionSources tr) :
    applyTransition p tr d =
      (.error (.workflow (.invalidTransition p.state tr)), p) := by
  simp [applyTransition, h]

/-- Witness for C6: `enrich` from `init` is rejected with
    `InvalidTransition` and the processor is unchanged. -/
theorem illegal_transition_rejected_witness :
    (initProc (toL "msg")).state ∉ transitionSources .enrich ∧
    applyTransition (initProc (toL "msg")) .enrich dEx =
      (.error (.workflow
        (.invalidTransition (initProc (toL "msg")).state .enrich)),
       initProc (toL "msg")) :=
  ⟨by decide, illegal_transition_rejected _ _ _ (by decide)⟩

/-! ## C3 -/
/-- C3: opening the reader fails before any segment is produced:
    with the `ValueError` branch (`InvalidHeader` in the specification's
    taxonomy) when the input does not begin with the configured header tag
    `"ISA"`, and with the `IndexError` of `_set_delimiters`
    (`TruncatedHeader`) when fewer than the configured 106 header
    characters are available.  `segments` is only reached after `__enter__`
    returns, so an erroring `enter` precedes any segment. -/
theorem enter_header_validation (input : List Char) :
    (is_x12_data input = false → enter input = .error .invalidInput) ∧
    (is_x12_data input = true → input.length < isa_segment_length →
      enter input = .error .indexError) := by
  constructor
  · intro h
    simp [enter, h]
  · intro h hlen
    have hinne : input ≠ [] := by
      intro hx
      subst hx
      simp [is_x12_data, List.isPrefixOf] at h
    have hne : (input.take isa_segment_length).isEmpty = false := by
      rw [List.isEmpty_eq_false, Ne, List.take_eq_nil_iff]
      simp [isa_segment_length, hinne]
    have hlen' : input.length < 106 := by
      simpa [isa_segment_length] using hlen
    have h105 : (input.take isa_segment_length)[isa_segment_terminator]?
        = none := by
      apply List.getElem?_eq_none
      rw [List.length_take]
      simp [isa_segment_length, isa_segment_terminator]
      omega
    rcases h3 : (input.take isa_segment_length)[isa_element_separator]?
      with _ | e <;>
      rcases h82 : (input.take isa_segment_length)[isa_repetition_separator]?
        with _ | r <;>
      simp [enter, h, hne, set_delimiters, h3, h82, h105]

/-- Witness for C3: an HL7-looking payload is rejected as invalid input,
    and a 14-character input starting with `"ISA"` fails with the
    truncated-header `IndexError`. -/
theorem enter_header_validation_witness :
    enter (toL "MSH|^~bad") = .error .invalidInput ∧
    enter (toL "ISA*TRUNCATED*") = .error .indexError :=
  ⟨(enter_header_validation (toL "MSH|^~bad")).1 (by decide),
   (enter_header_validation (toL "ISA*TRUNCATED*")).2 (by decide) (by decide)⟩

theorem evalPath_append (v : JValue) (p q : List PathStep) :
    evalPath v (p ++ q) = (evalPath v p).bind (fun w => evalPath w q) := by
  induction p generalizing v with
  | nil => simp [evalPath]
  | cons s p ih =>
    simp only [List.cons_append, evalPath]
    cases evalStep v s with
    | none => simp
    | some w => simp [ih]

theorem evalPath_single (v : JValue) (s : PathStep) :
    evalPath v [s] = evalStep v s := by
  cases h : evalStep v s <;> simp [evalPath, h]

/-- If one iteration of the translate loop completes without raising, then
    every consumed hierarchical path was present in the model. -/
theorem translateModel_ok_all_paths (today : List Char) (e : ℚ) (p : Proc)
    (model : JValue) (h : (translateModel today e p model).2 = none) :
    ∀ pa ∈ consumedPaths, (evalPath model pa).isSome := by
  intro pa hpa
  unfold translateModel at h
  cases h1 : evalPath model path_2100c_nm1 with
  | none => simp [h1] at h
  | some seg1 =>
  simp only [h1] at h
  cases h2 : jGet seg1 (toL "name_last_or_organization_name") with
  | none => simp [h2] at h
  | some v1 =>
  simp only [h2] at h
  cases h3 : jGet seg1 (toL "name_first") with
  | none => simp [h3] at h
  | some v2 =>
  simp only [h3] at h
  cases h4 : jGet seg1 (toL "identification_code") with
  | none => simp [h4] at h
  | some v3 =>
  simp only [h4] at h
  cases h5 : evalPath model path_trn with
  | none => simp [h5] at h
  | some seg2 =>
  simp only [h5] at h
  cases h6 : jGet seg2 (toL "originating_company_identifier") with
  | none => simp [h6] at h
  | some v4 =>
  simp only [h6] at h
  cases h7 : evalPath model path_2100a_nm1 with
  | none => simp [h7] at h
  | some seg3 =>
  simp only [h7] at h
  cases h8 : jGet seg3 (toL "name_last_or_organization_name") with
  | none => simp [h8] at h
  | some v5 =>
  simp only [h8] at h
  cases h9 : jGet seg3 (toL "identification_code") with
  | none => simp [h9] at h
  | some v6 =>
  simp only [h9] at h
  cases h10 : evalPath model path_2100b_nm1 with
  | none => simp [h10] at h
  | some seg4 =>
  simp only [h10] at h
  cases h11 : jGet seg4 (toL "name_last_or_organization_name") with
  | none => simp [h11] at h
  | some v7 =>
  simp only [h11] at h
  cases h12 : jGet seg4 (toL "identification_code") with
  | none => simp [h12] at h
  | some v8 =>
  simp only [consumedPaths, List.mem_cons, List.not_mem_nil, or_false]
    at hpa
  rcases hpa with rfl | rfl | rfl | rfl | rfl | rfl | rfl | rfl
  · simp [evalPath_append, h1, evalPath_single, evalStep, h2]
  · simp [evalPath_append, h1, evalPath_single, evalStep, h3]
  · simp [evalPath_append, h1, evalPath_single, evalStep, h4]
  · simp [evalPath_append, h5, evalPath_single, evalStep, h6]
  · simp [evalPath_append, h7, evalPath_single, evalStep, h8]
  · simp [evalPath_append, h7, evalPath_single, evalStep, h9]
  · simp [evalPath_append, h10, evalPath_single, evalStep, h11]
  · simp [evalPath_append, h10, evalPath_single, evalStep, h12]

/-- C4: for every parsed model in which one of the fixed hierarchical
    paths consumed by the eligibility-check translate stage is absent,
    `translate` fails with `MissingField`. -/
theorem translate_missing_path_fails (p : Proc) (model : JValue)
    (today : List Char) (elapsed : Nat → ℚ)
    (hstate : p.state ∈ transitionSources .translate)
    (hmiss : ∃ pa ∈ consumedPaths, evalPath model pa = none) :
    (elig_translate p [model] today elapsed).1 =
      .error (.translation .missingField) := by
  obtain ⟨pa, hpa, hnone⟩ := hmiss
  rcases hres : translateModel today (elapsed 0) p model with ⟨p', r⟩
  cases r with
  | none =>
    exfalso
    have hs := translateModel_ok_all_paths today (elapsed 0) p model
      (by rw [hres]) pa hpa
    rw [hnone] at hs
    simp at hs
  | some e =>
    cases e
    simp [elig_translate, hstate, translateLoop, hres]

/-- Witness for C4: on a model that is an empty dict, the first consumed
    path is absent and `translate` from `analyzed` raises `MissingField`. -/
theorem translate_missing_path_fails_witness :
    procAnalyzed.state ∈ transitionSources .translate ∧
    (∃ pa ∈ consumedPaths, evalPath (JValue.obj []) pa = none) ∧
    (elig_translate procAnalyzed [JValue.obj []] (toL "2021-07-14")
      (fun _ => 0)).1 = .error (.translation .missingField) :=
  ⟨by decide,
   ⟨path_2100c_nm1 ++ [PathStep.key (toL "name_last_or_organization_name")],
      by simp [consumedPaths], rfl⟩,
   translate_missing_path_fails _ _ _ _ (by decide)
     ⟨path_2100c_nm1 ++ [PathStep.key (toL "name_last_or_organization_name")],
      by simp [consumedPaths], rfl⟩⟩

/-! ## C9 -/
/-- C9: in the correlator callback, every inbound message whose
    correlation id (`identifier[0].value` of the decoded payload) differs
    from the active transaction's id is silently ignored: the callback
    returns without raising, `message_received` stays as it was, no
    template rewrite output is produced, and the processor is returned
    with every field unchanged. -/
theorem callback_ignores_mismatched_id (p : Proc) (payload : JValue)
    (template : List Char) (idv : JValue)
    (hpath : evalPath payload correlationIdPath = some idv)
    (hne : pyNeq idv p.transaction_id = true) :
    nats_coverage_response_callback p payload template = .ok (p, none) := by
  simp [nats_coverage_response_callback, needCb, hpath, hne, bind,
    Except.bind, pure, Except.pure, Except.instMonad]

/-- Witness for C9: a payload with id `"0000000000"` against an active
    transaction `"9877281234"` is ignored and the processor is returned
    unchanged. -/
theorem callback_ignores_mismatched_id_witness :
    evalPath payloadMismatch correlationIdPath
      = some (.str (toL "0000000000")) ∧
    pyNeq (.str (toL "0000000000")) procWithTid.transaction_id = true ∧
    nats_coverage_response_callback procWithTid payloadMismatch (toL "")
      = .ok (procWithTid, none) :=
  ⟨rfl, rfl, callback_ignores_mismatched_id _ _ _ _ rfl rfl⟩

/-- C10 asserts that a successful eligibility-check `translate` appends
    exactly one `TRANSLATE` entry and builds the request exactly once,
    regardless of how many models the input parses into.  This fails on
    the code: the request construction, the metrics write and the
    operation-log append sit inside the `for model in models:` loop, so an
    input parsing into two models appends `TRANSLATE` twice (and builds
    the request twice) in one successful `translate` call. -/
theorem translate_appends_per_model :
    (elig_translate procAnalyzed [modelEx, modelEx] (toL "2021-07-14")
      (fun _ => 0)).1 = .ok () ∧
    (elig_translate procAnalyzed [modelEx, modelEx] (toL "2021-07-14")
      (fun _ => 0)).2.operations.count .TRANSLATE = 2 := by
  exact ⟨rfl, rfl⟩

/-- C5 asserts the event-channel subscription is released by the end of
    every processing run, including when a stage raises.  This fails on
    the code: `process_edi` has no `try`/`finally`, so when `analyze`
    raises, the exception propagates out of `process_edi` before
    `stop_nats_coverage_eligibility_subscriber` runs — the run ends raised
    with the subscription still open (`false`). -/
theorem process_edi_leaks_subscription_on_fault :
    process_edi (toL "msg") flagsAll dAnalyzeFails [modelEx]
      (toL "2021-07-14") (fun _ => 0) true =
      (.raised (.analysis (toL "AnalysisError")), false) := by
  rfl

/-- C5 (amended): the subscription is released before the result is
    assembled on every run that finishes with a result (no stage raised
    and the correlated message arrived); on a run that ends in an uncaught
    stage fault the release is skipped. -/
theorem process_edi_releases_on_completion (input : List Char)
    (flags : RunFlags) (d : DynInputs) (models : List JValue)
    (today : List Char) (elapsedT : Nat → ℚ) (messageArrives : Bool)
    (h : ∃ r, (process_edi input flags d models today elapsedT
        messageArrives).1 = RunOutcome.finished r) :
    (process_edi input flags d models today elapsedT messageArrives).2
      = true := by
  obtain ⟨r, h⟩ := h
  unfold process_edi at h ⊢
  repeat' split at h
  all_goals try simp_all
  all_goals split <;> rfl

/-- Witness for C5 (amended): a run with all stages succeeding and the
    message arriving finishes with a result and has released the
    subscription. -/
theorem process_edi_releases_on_completion_witness :
    (process_edi (toL "msg") flagsAll dEx [modelEx] (toL "2021-07-14")
      (fun _ => 0) true).2 = true :=
  process_edi_releases_on_completion _ _ _ _ _ _ _ ⟨_, rfl⟩

theorem noAdjacent_iff_noAdjacentB (t : Char) (l : List Char) :
    noAdjacentB t l = true ↔ noAdjacent t l := by
  induction l with
  | nil => simp [noAdjacentB, noAdjacent]
  | cons a rest ih =>
    cases rest with
    | nil => simp [noAdjacentB, noAdjacent]
    | cons b rest' =>
      rw [noAdjacent] at ih
      rw [noAdjacent, List.chain'_cons, noAdjacentB, ← ih]
      constructor
      · intro hx
        have h1 := (Bool.and_eq_true _ _).mp hx
        refine ⟨?_, h1.2⟩
        intro ⟨ha, hb⟩
        subst ha
        subst hb
        simp at h1
      · intro ⟨hr, hc⟩
        rw [Bool.and_eq_true]
        refine ⟨?_, hc⟩
        rw [Bool.not_eq_true', Bool.and_eq_false_iff]
        by_cases ha : a = t
        · right
          rw [beq_eq_false_iff_ne]
          intro hb
          exact hr ⟨ha, hb⟩
        · left
          rw [beq_eq_false_iff_ne]
          exact ha

theorem pySplit_ne_nil (t : Char) (l : List Char) : pySplit t l ≠ [] := by
  cases l with
  | nil => simp [pySplit]
  | cons c rest =>
    simp only [pySplit]
    split <;> simp

theorem pySplit_cons_sep (t : Char) (l : List Char) :
    pySplit t (t :: l) = [] :: pySplit t l := by
  simp [pySplit]

theorem pySplit_cons_ne (t c : Char) (l : List Char) (hc : c ≠ t) :
    pySplit t (c :: l) =
      (c :: (pySplit t l).headI) :: (pySplit t l).tail := by
  simp [pySplit, hc]

theorem pySplit_append (t : Char) (a b : List Char) :
    pySplit t (a ++ t :: b) = pySplit t a ++ pySplit t b := by
  induction a with
  | nil => simp [pySplit_cons_sep, pySplit]
  | cons c a ih =>
    by_cases hc : c = t
    · subst hc
      simp [pySplit_cons_sep, ih]
    · rw [List.cons_append, pySplit_cons_ne t c _ hc, ih,
        pySplit_cons_ne t c a hc]
      rcases hps : pySplit t a with _ | ⟨s, ss⟩
      · exact absurd hps (pySplit_ne_nil t a)
      · simp

theorem pySplit_no_sep (t : Char) (l : List Char) (h : t ∉ l) :
    pySplit t l = [l] := by
  induction l with
  | nil => simp [pySplit]
  | cons c rest ih =>
    have hc : c ≠ t := fun hx => h (hx ▸ List.mem_cons_self c rest)
    rw [pySplit_cons_ne t c rest hc, ih (fun hx => h (List.mem_cons_of_mem c hx))]
    simp

theorem pySplit_getLast_ne_nil (t : Char) :
    ∀ (l : List Char) (c : Char), l.getLast? = some c → c ≠ t →
      ∃ s, (pySplit t l).getLast? = some s ∧ s ≠ [] := by
  intro l
  induction l with
  | nil => simp
  | cons x rest ih =>
    intro c hc hct
    cases rest with
    | nil =>
      have hxc : x = c := by simpa using hc
      have hxt : x ≠ t := by rw [hxc]; exact hct
      refine ⟨[x], ?_, by simp⟩
      rw [pySplit_cons_ne t x [] hxt]
      simp [pySplit]
    | cons y rest' =>
      have hc' : (y :: rest').getLast? = some c := by
        rw [← hc, List.getLast?_cons_cons]
      obtain ⟨s, hs, hsne⟩ := ih c hc' hct
      by_cases hx : x = t
      · subst hx
        rw [pySplit_cons_sep]
        rcases hps : pySplit x (y :: rest') with _ | ⟨z, zs⟩
        · exact absurd hps (pySplit_ne_nil x (y :: rest'))
        · rw [hps] at hs
          exact ⟨s, by rw [List.getLast?_cons_cons, hs], hsne⟩
      · rw [pySplit_cons_ne t x _ hx]
        rcases hps : pySplit t (y :: rest') with _ | ⟨z, zs⟩
        · exact absurd hps (pySplit_ne_nil t (y :: rest'))
        · rw [hps] at hs
          cases zs with
          | nil =>
            simp only [List.getLast?_singleton, Option.some_inj] at hs
            exact ⟨x :: z, by simp, by simp⟩
          | cons w ws =>
            rw [List.getLast?_cons_cons] at hs
            refine ⟨s, ?_, hsne⟩
            simp only [List.headI, List.tail]
            rw [List.getLast?_cons_cons, hs]

theorem dropWhileAppend {α : Type} (p : α → Bool) (a b : List α)
    (h : List.dropWhile p a ≠ []) :
    List.dropWhile p (a ++ b) = List.dropWhile p a ++ b := by
  induction a with
  | nil => simp at h
  | cons c a ih =>
    by_cases hc : p c
    · rw [List.dropWhile_cons_of_pos hc] at h
      rw [List.cons_append, List.dropWhile_cons_of_pos hc,
        List.dropWhile_cons_of_pos hc]
      exact ih h
    · rw [List.cons_append, List.dropWhile_cons_of_neg hc,
        List.dropWhile_cons_of_neg hc, List.cons_append]

theorem dropTrailingEmpty_of_getLast_ne (L : List (List Char))
    (s : List Char) (hs : L.getLast? = some s) (hne : s ≠ []) :
    dropTrailingEmpty L = L := by
  have hrev : L.reverse.head? = some s := by rw [List.head?_reverse, hs]
  rcases hL : L.reverse with _ | ⟨a, as⟩
  · rw [hL] at hrev
    simp at hrev
  · rw [hL] at hrev
    simp only [List.head?_cons, Option.some_inj] at hrev
    subst hrev
    rw [dropTrailingEmpty, hL, List.dropWhile_cons_of_neg (by simpa using hne)]
    rw [← hL, List.reverse_reverse]

theorem dropTrailingEmpty_concat_nil (L : List (List Char)) :
    dropTrailingEmpty (L ++ [[]]) = dropTrailingEmpty L := by
  simp [dropTrailingEmpty, List.dropWhile]

theorem dropTrailingEmpty_append (X Y : List (List Char))
    (h : dropTrailingEmpty Y ≠ []) :
    dropTrailingEmpty (X ++ Y) = X ++ dropTrailingEmpty Y := by
  have h' : List.dropWhile (fun s => List.isEmpty s) Y.reverse ≠ [] := by
    intro hx
    apply h
    rw [dropTrailingEmpty, hx]
    rfl
  rw [dropTrailingEmpty, List.reverse_append, dropWhileAppend _ _ _ h',
    List.reverse_append, List.reverse_reverse, dropTrailingEmpty]

theorem dropTrailingEmpty_ne_nil (L : List (List Char)) (s : List Char)
    (hmem : s ∈ L) (hne : s ≠ []) : dropTrailingEmpty L ≠ [] := by
  intro hx
  rw [dropTrailingEmpty] at hx
  have h0 : List.dropWhile (fun s => List.isEmpty s) L.reverse = [] := by
    have := congrArg List.reverse hx
    simpa using this
  rw [List.dropWhile_eq_nil_iff] at h0
  have := h0 s (List.mem_reverse.mpr hmem)
  simp [List.isEmpty_iff] at this
  exact hne this

theorem pyRstrip_of_getLast_ne (t : Char) (l : List Char) (c : Char)
    (hl : l.getLast? = some c) (hc : c ≠ t) : pyRstrip t l = l := by
  have hrev : l.reverse.head? = some c := by rw [List.head?_reverse, hl]
  rcases hL : l.reverse with _ | ⟨a, as⟩
  · rw [hL] at hrev
    simp at hrev
  · rw [hL] at hrev
    simp only [List.head?_cons, Option.some_inj] at hrev
    subst hrev
    rw [pyRstrip, hL, List.dropWhile_cons_of_neg (by simpa using hc)]
    rw [← hL, List.reverse_reverse]

theorem pyRstrip_concat_sep (t : Char) (l : List Char) :
    pyRstrip t (l ++ [t]) = pyRstrip t l := by
  simp [pyRstrip, List.dropWhile]

theorem segsCore_nil (t : Char) (bufSize : Nat) (fuel : Nat) :
    segsCore t bufSize fuel [] = [] := by
  cases fuel <;> simp [segsCore]

/-- A terminator-ended-or-final chunk, rstripped and split, agrees with
    the split of the chunk with trailing empties discarded, provided the
    chunk has no adjacent terminators and does not begin with one. -/
theorem splitChunk_final (t : Char) (l : List Char) (hne : l ≠ [])
    (hhead : l.head? ≠ some t) (hadj : noAdjacent t l) :
    pySplit t (pyRstrip t l) = dropTrailingEmpty (pySplit t l) := by
  rcases hl : l.getLast? with _ | c
  · rw [List.getLast?_eq_getLast_of_ne_nil hne] at hl
    simp at hl
  by_cases hct : c = t
  · subst hct
    have h1 := List.dropLast_append_getLast hne
    have h2 : l.getLast hne = c := by
      rw [List.getLast?_eq_getLast_of_ne_nil hne] at hl
      exact Option.some_inj.mp hl
    rw [h2] at h1
    have hmne : l.dropLast ≠ [] := by
      intro hx
      rw [hx, List.nil_append] at h1
      rw [← h1] at hhead
      simp at hhead
    -- the character before the final terminator is not the terminator
    have hlm : l.dropLast.getLast? ≠ some c := by
      intro hx
      have hadj' : noAdjacent c (l.dropLast ++ [c]) := by rw [h1]; exact hadj
      rw [noAdjacent, List.chain'_append] at hadj'
      exact hadj'.2.2 c hx c rfl ⟨rfl, rfl⟩
    rcases hlm2 : l.dropLast.getLast? with _ | cm
    · rw [List.getLast?_eq_getLast_of_ne_nil hmne] at hlm2
      simp at hlm2
    have hcm : cm ≠ c := by
      intro hx
      rw [hx] at hlm2
      exact hlm hlm2
    conv_lhs => rw [← h1]
    conv_rhs => rw [← h1]
    have happ : l.dropLast ++ [c] = l.dropLast ++ c :: [] := rfl
    rw [happ, pySplit_append]
    have hps : pySplit c [] = [[]] := by simp [pySplit]
    rw [hps, pyRstrip_concat_sep, dropTrailingEmpty_concat_nil,
      pyRstrip_of_getLast_ne c l.dropLast cm hlm2 hcm]
    obtain ⟨s, hs, hsne⟩ := pySplit_getLast_ne_nil c l.dropLast cm hlm2 hcm
    rw [dropTrailingEmpty_of_getLast_ne _ s hs hsne]
  · rw [pyRstrip_of_getLast_ne t l c hl hct]
    obtain ⟨s, hs, hsne⟩ := pySplit_getLast_ne_nil t l c hl hct
    rw [dropTrailingEmpty_of_getLast_ne _ s hs hsne]

/-- The chunked segment loop produces the terminator-split of the input
    with trailing empties discarded, for any buffer size, when the input
    has no adjacent terminators and does not begin with one. -/
theorem segsCore_spec (t : Char) (bufSize : Nat) (hbs : 1 ≤ bufSize) :
    ∀ fuel input, input.length < fuel → input ≠ [] →
      input.head? ≠ some t → noAdjacent t input →
      segsCore t bufSize fuel input = dropTrailingEmpty (pySplit t input) := by
  intro fuel
  induction fuel with
  | zero =>
    intro input h
    omega
  | succ fuel ih =>
    intro input hlen hne hhead hadj
    have hbufne : input.take bufSize ≠ [] := by
      rw [Ne, List.take_eq_nil_iff]
      push_neg
      exact ⟨by omega, hne⟩
    rcases hext : extendBuf t (input.take bufSize) (input.drop bufSize)
      with ⟨b, r⟩
    have hbr : b ++ r = input := by
      have := extendBuf_append t (input.take bufSize) (input.drop bufSize)
      rw [hext] at this
      simpa [List.take_append_drop] using this
    have hbne : b ≠ [] := by
      have := extendBuf_ne_nil t (input.take bufSize) (input.drop bufSize)
        hbufne
      rw [hext] at this
      exact this
    have hbhead : b.head? = input.head? := by
      rw [← hbr]
      exact (List.head?_append_of_ne_nil b hbne).symm
    have hstep : segsCore t bufSize (fuel + 1) input =
        splitChunk t b ++ segsCore t bufSize fuel r := by
      simp only [segsCore, if_neg hbufne, hext]
    rw [hstep]
    cases hrc : r with
    | nil =>
      subst hrc
      have hbi : b = input := by simpa using hbr
      rw [segsCore_nil, List.append_nil, hbi, splitChunk]
      exact splitChunk_final t input hne hhead hadj
    | cons rc rrest =>
      subst hrc
      have hlast : b.getLast? = some t := by
        have := extendBuf_getLast t (input.take bufSize)
          (input.drop bufSize) (by rw [hext]; simp)
        rw [hext] at this
        exact this
      have h1 := List.dropLast_append_getLast hbne
      have h2 : b.getLast hbne = t := by
        rw [List.getLast?_eq_getLast_of_ne_nil hbne] at hlast
        exact Option.some_inj.mp hlast
      rw [h2] at h1
      set m := b.dropLast with hm
      have hmne : m ≠ [] := by
        intro hx
        rw [hx, List.nil_append] at h1
        rw [← h1] at hbhead
        rw [← hbhead] at hhead
        simp at hhead
      -- decompose the no-adjacent-terminator hypothesis
      have hadj' : noAdjacent t ((m ++ [t]) ++ (rc :: rrest)) := by
        rw [h1, hbr]
        exact hadj
      rw [noAdjacent, List.chain'_append] at hadj'
      obtain ⟨hcb, hcr, hbound⟩ := hadj'
      rw [List.chain'_append] at hcb
      obtain ⟨hcm, _, hboundm⟩ := hcb
      have hlm : m.getLast? ≠ some t := by
        intro hx
        exact hboundm t hx t rfl ⟨rfl, rfl⟩
      have hrhead : rc ≠ t := by
        intro hx
        refine hbound t ?_ rc ?_ ⟨rfl, hx⟩
        · rw [List.getLast?_concat]
          rfl
        · rfl
      rcases hlm2 : m.getLast? with _ | cm
      · rw [List.getLast?_eq_getLast_of_ne_nil hmne] at hlm2
        simp at hlm2
      have hcm : cm ≠ t := by
        intro hx
        rw [hx] at hlm2
        exact hlm hlm2
      have hrlen : (rc :: rrest).length < fuel := by
        have hlb : 0 < b.length := List.length_pos.mpr hbne
        have : b.length + (rc :: rrest).length = input.length := by
          rw [← List.length_append, hbr]
        omega
      have hIH := ih (rc :: rrest) hrlen (by simp)
        (by simpa using hrhead) hcr
      rw [hIH, splitChunk, ← h1, pyRstrip_concat_sep,
        pyRstrip_of_getLast_ne t m cm hlm2 hcm]
      have hsplit : pySplit t input =
          pySplit t m ++ pySplit t (rc :: rrest) := by
        rw [← hbr, ← h1, List.append_assoc, List.singleton_append,
          pySplit_append]
      rw [hsplit]
      have hfirst : dropTrailingEmpty (pySplit t (rc :: rrest)) ≠ [] := by
        rw [pySplit_cons_ne t rc rrest hrhead]
        exact dropTrailingEmpty_ne_nil _ _ (List.mem_cons_self _ _)
          (by simp)
      rw [dropTrailingEmpty_append _ _ hfirst]

/-- C7 (amended): for every buffer size ≥ 1 and every nonempty input that
    does not begin with the terminator and contains no two consecutive
    terminators, `segments()` yields exactly the terminator-split segments
    of the input, in order, with the trailing empty artifact of a final
    terminator discarded — so no segment is lost or split across a chunk
    boundary, and a final unterminated partial segment is still emitted. -/
theorem segments_spec (t : Char) (bufSize : Nat) (input : List Char)
    (hbs : 1 ≤ bufSize) (hne : input ≠ []) (hhead : input.head? ≠ some t)
    (hadj : noAdjacent t input) :
    segments bufSize t input = dropTrailingEmpty (pySplit t input) :=
  segsCore_spec t bufSize hbs (input.length + 1) input (by omega) hne hhead
    hadj

/-- C7, as stated, is false on the code: `c7Input` has a valid header
    (`enter` succeeds with terminator `'~'`), yet with buffer size 107 the
    first chunk ends in two terminators, the per-chunk `rstrip` swallows
    both, and the empty segment between them is never yielded: the reader
    returns one segment fewer than the terminator-split of the input
    (with its trailing empty discarded) requires. -/
theorem segments_loses_empty_segment :
    enter c7Input = .ok ⟨'*', 'A', '~'⟩ ∧
    segments 107 '~' c7Input ≠ dropTrailingEmpty (pySplit '~' c7Input) := by
  constructor
  · rfl
  · decide

/-- Witness for C7 (amended): a valid-header input with no adjacent
    terminators, read with buffer size 10, yields exactly the
    terminator-split segments. -/
theorem segments_spec_witness :
    (hdrEx ++ toL "B~C") ≠ ([] : List Char) ∧
    (hdrEx ++ toL "B~C").head? ≠ some '~' ∧
    noAdjacent '~' (hdrEx ++ toL "B~C") ∧
    segments 10 '~' (hdrEx ++ toL "B~C") =
      dropTrailingEmpty (pySplit '~' (hdrEx ++ toL "B~C")) :=
  ⟨by decide, by decide,
   by rw [← noAdjacent_iff_noAdjacentB]; decide,
   segments_spec '~' 10 (hdrEx ++ toL "B~C") (by decide) (by decide)
     (by decide) (by rw [← noAdjacent_iff_noAdjacentB]; decide)⟩

theorem joinSep_cons_cons (sep : Char) (e f : List Char)
    (rest : List (List Char)) :
    joinSep sep (e :: f :: rest) = e ++ sep :: joinSep sep (f :: rest) := by
  rfl

theorem pySplit_joinSep (c : Char) (L : List (List Char))
    (h : ∀ x ∈ L, c ∉ x) (hne : L ≠ []) :
    pySplit c (joinSep c L) = L := by
  induction L with
  | nil => exact absurd rfl hne
  | cons x rest ih =>
    cases rest with
    | nil =>
      show pySplit c (joinSep c [x]) = [x]
      rw [joinSep, pySplit_no_sep c x (h x (List.mem_cons_self x []))]
    | cons y rest' =>
      rw [joinSep_cons_cons, pySplit_append,
        pySplit_no_sep c x (h x (List.mem_cons_self x _)),
        ih (fun z hz => h z (List.mem_cons_of_mem x hz)) (by simp)]
      rfl

theorem joinSep_not_mem (c d : Char) (hcd : c ≠ d)
    (L : List (List Char)) (h : ∀ x ∈ L, c ∉ x) : c ∉ joinSep d L := by
  induction L with
  | nil => simp [joinSep]
  | cons x rest ih =>
    cases rest with
    | nil =>
      show c ∉ joinSep d [x]
      rw [joinSep]
      exact h x (List.mem_cons_self x [])
    | cons y rest' =>
      rw [joinSep_cons_cons]
      intro hmem
      rcases List.mem_append.mp hmem with hx | hx
      · exact h x (List.mem_cons_self x _) hx
      · rcases List.mem_cons.mp hx with hd | hj
        · exact hcd hd
        · exact ih (fun z hz => h z (List.mem_cons_of_mem x hz)) hj

theorem joinSep_ne_nil (c : Char) (seg : List (List Char))
    (h1 : seg ≠ []) (h2 : seg ≠ [[]]) : joinSep c seg ≠ [] := by
  cases seg with
  | nil => exact absurd rfl h1
  | cons e rest =>
    cases rest with
    | nil =>
      show joinSep c [e] ≠ []
      rw [joinSep]
      intro hx
      exact h2 (by rw [hx])
    | cons f rest' =>
      rw [joinSep_cons_cons]
      simp

theorem getLast?_joinSep (c : Char) :
    ∀ (L : List (List Char)) (J : List Char), L.getLast? = some J →
      J ≠ [] → (joinSep c L).getLast? = J.getLast? := by
  intro L
  induction L with
  | nil => simp
  | cons x rest ih =>
    intro J hJ hJne
    cases rest with
    | nil =>
      have hxJ : x = J := by simpa using hJ
      rw [hxJ]
      rfl
    | cons y rest' =>
      have hJ' : (y :: rest').getLast? = some J := by
        rw [← hJ, List.getLast?_cons_cons]
      have hjoin := ih J hJ' hJne
      have hjne : joinSep c (y :: rest') ≠ [] := by
        intro hx
        rw [hx] at hjoin
        rcases hlJ : J.getLast? with _ | z
        · rw [List.getLast?_eq_getLast_of_ne_nil hJne] at hlJ
          simp at hlJ
        · rw [hlJ] at hjoin
          simp at hjoin
      rw [joinSep_cons_cons, List.getLast?_append_of_ne_nil x (by simp)]
      have hcons : c :: joinSep c (y :: rest') =
          [c] ++ joinSep c (y :: rest') := rfl
      rw [hcons, List.getLast?_append_of_ne_nil [c] hjne]
      exact hjoin

theorem encodeBody_eq (sep term : Char) :
    ∀ (segs : List (List (List Char))), segs ≠ [] →
      encodeBody sep term segs =
        joinSep term (segs.map (joinSep sep)) ++ [term] := by
  intro segs
  induction segs with
  | nil => intro h; exact absurd rfl h
  | cons s rest ih =>
    intro _
    cases rest with
    | nil =>
      show encodeBody sep term [s] = joinSep term [joinSep sep s] ++ [term]
      rw [encodeBody, joinSep]
      simp [encodeSegment]
    | cons s2 rest' =>
      have hbody : encodeBody sep term (s :: s2 :: rest') =
          encodeSegment sep term s ++ encodeBody sep term (s2 :: rest') := rfl
      rw [hbody, ih (by simp)]
      simp only [List.map_cons]
      rw [joinSep_cons_cons, encodeSegment]
      simp

theorem segments_single_chunk (t : Char) (bufSize : Nat)
    (input : List Char) (hbig : input.length ≤ bufSize)
    (hne : input ≠ []) :
    segments bufSize t input = pySplit t (pyRstrip t input) := by
  rw [segments]
  show segsCore t bufSize (input.length + 1) input = _
  simp only [segsCore, List.take_of_length_le hbig,
    List.drop_eq_nil_of_le hbig, if_neg hne]
  have hext : extendBuf t input [] = (input, []) := by
    cases input <;> rfl
  rw [hext]
  rw [segsCore_nil]
  rw [List.append_nil, splitChunk]

theorem pyRstrip_not_mem (t : Char) (l : List Char) (h : t ∉ l) :
    pyRstrip t l = l := by
  cases hl : l.getLast? with
  | none =>
    have : l = [] := by
      cases l with
      | nil => rfl
      | cons a as =>
        rw [List.getLast?_eq_getLast_of_ne_nil (by simp)] at hl
        simp at hl
    rw [this]
    rfl
  | some c =>
    have hc : c ≠ t := by
      intro hx
      exact h (hx ▸ List.mem_of_getLast?_eq_some hl)
    exact pyRstrip_of_getLast_ne t l c hl hc

/-- C8 (amended): the round trip holds for every segment list whose
    segments are nonempty element lists, whose elements contain neither
    delimiter, and whose final segment does not encode to the empty string
    (it is not the single empty element), decoded in a single buffered
    read.  Encoding with a valid 106-character ISA header carrying the
    chosen delimiters and decoding with `segments()`/`elements()` over
    those delimiters reproduces the original list exactly. -/
theorem decode_encode (sep term : Char) (hb : List Char)
    (segs : List (List (List Char)))
    (hst : sep ≠ term)
    (hhb : hb.length = 105) (hhbt : term ∉ hb)
    (hhb3 : hb.get? 3 = some sep)
    (hisa : List.isPrefixOf (toL "ISA") hb)
    (hclean : ∀ seg ∈ segs, ∀ el ∈ seg, term ∉ el ∧ sep ∉ el)
    (hne : ∀ seg ∈ segs, seg ≠ [])
    (hlast : ∀ l, segs.getLast? = some l → l ≠ [[]])
    (bufSize : Nat)
    (hbig : (hb ++ [term] ++ encodeBody sep term segs).length ≤ bufSize) :
    decode bufSize term sep (hb ++ [term] ++ encodeBody sep term segs)
      = segs := by
  have hhbne : hb ≠ [] := by
    intro hx
    rw [hx] at hhb
    simp at hhb
  have hinne : hb ++ [term] ++ encodeBody sep term segs ≠ [] := by
    simp [hhbne]
  rw [decode, segments_single_chunk term bufSize _ hbig hinne]
  cases hsegs : segs with
  | nil =>
    show (((pySplit term
      (pyRstrip term (hb ++ [term] ++ encodeBody sep term []))).drop 1).map
        (fun seg => elements seg sep)) = []
    have hbody : encodeBody sep term [] = [] := rfl
    rw [hbody, List.append_nil, pyRstrip_concat_sep,
      pyRstrip_not_mem term hb hhbt, pySplit_no_sep term hb hhbt]
    rfl
  | cons s0 rest0 =>
    rw [← hsegs]
    have hsegs_ne : segs ≠ [] := by rw [hsegs]; simp
    rw [encodeBody_eq sep term segs hsegs_ne]
    -- the last joined segment is nonempty and terminator-free
    obtain ⟨lseg, hlseg⟩ : ∃ l, segs.getLast? = some l := by
      rw [hsegs]
      exact ⟨_, List.getLast?_eq_getLast_of_ne_nil (by simp)⟩
    have hlsegmem : lseg ∈ segs := List.mem_of_getLast?_eq_some hlseg
    have hJne : joinSep sep lseg ≠ [] :=
      joinSep_ne_nil sep lseg (hne lseg hlsegmem) (hlast lseg hlseg)
    have hJt : term ∉ joinSep sep lseg :=
      joinSep_not_mem term sep (Ne.symm hst) lseg
        (fun el hel => (hclean lseg hlsegmem el hel).1)
    have hmapLast : (segs.map (joinSep sep)).getLast? =
        some (joinSep sep lseg) := by
      rw [List.getLast?_map, hlseg]
      rfl
    have hBlast : (joinSep term (segs.map (joinSep sep))).getLast? =
        (joinSep sep lseg).getLast? :=
      getLast?_joinSep term (segs.map (joinSep sep)) (joinSep sep lseg)
        hmapLast hJne
    obtain ⟨cl, hcl⟩ : ∃ c, (joinSep sep lseg).getLast? = some c := by
      exact ⟨_, List.getLast?_eq_getLast_of_ne_nil hJne⟩
    have hclt : cl ≠ term := by
      intro hx
      exact hJt (hx ▸ List.mem_of_getLast?_eq_some hcl)
    have hBne : joinSep term (segs.map (joinSep sep)) ≠ [] := by
      intro hx
      rw [hx] at hBlast
      rw [hcl] at hBlast
      simp at hBlast
    -- strip exactly the final terminator
    have hassoc : hb ++ [term] ++
        (joinSep term (segs.map (joinSep sep)) ++ [term]) =
        (hb ++ [term] ++ joinSep term (segs.map (joinSep sep))) ++ [term] := by
      simp
    rw [hassoc, pyRstrip_concat_sep]
    have hgl : (hb ++ [term] ++
        joinSep term (segs.map (joinSep sep))).getLast? = some cl := by
      rw [List.getLast?_append_of_ne_nil _ hBne, hBlast, hcl]
    rw [pyRstrip_of_getLast_ne term _ cl hgl hclt]
    have hassoc2 : hb ++ [term] ++ joinSep term (segs.map (joinSep sep)) =
        hb ++ term :: joinSep term (segs.map (joinSep sep)) := by
      simp
    have hmemfree : ∀ x ∈ segs.map (joinSep sep), term ∉ x := by
      intro x hx
      obtain ⟨seg, hseg, rfl⟩ := List.mem_map.mp hx
      exact joinSep_not_mem term sep (Ne.symm hst) seg
        (fun el hel => (hclean seg hseg el hel).1)
    have hmapne : segs.map (joinSep sep) ≠ [] := by
      rw [hsegs]
      simp
    rw [hassoc2, pySplit_append, pySplit_no_sep term hb hhbt,
      pySplit_joinSep term (segs.map (joinSep sep)) hmemfree hmapne]
    have hdrop : (([hb] ++ segs.map (joinSep sep)).drop 1) =
        segs.map (joinSep sep) := by
      simp
    rw [hdrop, List.map_map]
    have hmapeq : segs.map ((fun seg => elements seg sep) ∘ joinSep sep) =
        segs.map id :=
      List.map_congr_left (fun seg hseg => by
        simp only [Function.comp, elements, id]
        exact pySplit_joinSep sep seg
          (fun el hel => (hclean seg hseg el hel).2) (hne seg hseg))
    rw [hmapeq, List.map_id]

/-- C8, as stated, is false on the code: the claim quantifies over every
    list of segments of arbitrary element strings, but an element that
    contains the element separator is split at decode time.  Encoding the
    single segment `["A*B"]` with separator `'*'` and terminator `'~'`
    behind a valid ISA header decodes to `[["A", "B"]]`, not
    `[["A*B"]]`. -/
theorem decode_encode_counterexample :
    decode x12_reader_buffer_size '~' '*'
      (hb105 ++ ['~'] ++ encodeBody '*' '~' [[toL "A*B"]]) ≠
      [[toL "A*B"]] := by
  decide

/-- Witness for C8 (amended): the two-segment body
    `[["AB", "CD"], ["E"]]` round-trips exactly through encode and the
    reader's decode. -/
theorem decode_encode_witness :
    decode 200 '~' '*'
      (hb105 ++ ['~'] ++ encodeBody '*' '~' [[toL "AB", toL "CD"], [toL "E"]])
      = [[toL "AB", toL "CD"], [toL "E"]] :=
  decode_encode '*' '~' hb105 [[toL "AB", toL "CD"], [toL "E"]]
    (by decide) (by decide) (by decide) (by decide) (by decide) (by decide)
    (by decide) (by decide) 200 (by decide)

end EdiSpec
